import Mathlib

/-!
Verification of the go-k8s-configmap-store repository.

The repository implements a key-value store backed by Kubernetes ConfigMaps.
We shallowly embed its Go code:

* Go maps (`map[string]T`) become association lists with unique keys
  (`GoMap`), with `goLookup`, `goInsert` (replace-or-append) and `goDelete`
  mirroring Go map reads, writes and `delete`.
* A `corev1.ConfigMap` becomes `ConfigMap`: its object name and its
  `Data map[string]string` field, where the Go map may be `nil`
  (modelled as `Option`).
* The Kubernetes API server becomes a pure `Cluster` state (named ConfigMaps)
  with `clusterCreate` / `clusterGet` / `clusterUpdate` returning the
  distinguished error kinds (`AlreadyExists`, `NotFound`) the code branches on.
  Each manager operation also returns the list of remote calls it issued
  (`RemoteOp`), so that claims about "no remote call" are statable.
* Locks, contexts, label selectors and the informer plumbing are not modelled:
  the claims under verification are about the sequential data semantics.
-/

/-- Go `map[string]α` as an association list with unique keys. -/
abbrev GoMap (α : Type) := List (String × α)

/-- Go map read: `m[k]` (first matching key). -/
def goLookup {α : Type} : GoMap α → String → Option α
  | [], _ => none
  | e :: rest, k => if e.1 = k then some e.2 else goLookup rest k

/-- Go map write `m[k] = v`: replace in place, or append a fresh key. -/
def goInsert {α : Type} : GoMap α → String → α → GoMap α
  | [], k, v => [(k, v)]
  | e :: rest, k, v => if e.1 = k then (k, v) :: rest else e :: goInsert rest k v

/-- Go `delete(m, k)`. -/
def goDelete {α : Type} (m : GoMap α) (k : String) : GoMap α :=
  m.filter (fun e => decide (e.1 ≠ k))

/-- The key set of a Go map. -/
def goKeys {α : Type} (m : GoMap α) : List String :=
  m.map Prod.fst

/-- Splitting a character list at every `'.'`, as Go's
`strings.Split(name, ".")` does (always at least one, possibly empty, chunk). -/
def splitOnDot : List Char → List (List Char)
  | [] => [[]]
  | c :: rest =>
    if c = '.' then [] :: splitOnDot rest
    else
      match splitOnDot rest with
      | [] => [[c]]
      | g :: gs => (c :: g) :: gs

/-- Last chunk with a default, as Go's `sp[len(sp)-1]` on the split result. -/
def lastChunk : List Char → List (List Char) → List Char
  | d, [] => d
  | _, x :: rest => lastChunk x rest

/-- The Go constant `namePrefix = "store.k8s.jlandowner.com"` of the store
package (configmap-store.go and the synchronous variant). -/
def storeDomain : String := "store.k8s.jlandowner.com"

/-- The Go constant `namePrefix = "storage.k8s.jlandowner.com"` of the storage
package (configmap-storage.go). -/
def storageDomain : String := "storage.k8s.jlandowner.com"

/-- Go `extractBaseName`: split the qualified object name on `"."` and keep
the last chunk. -/
def extractBaseName (name : String) : String :=
  String.mk (lastChunk [] (splitOnDot name.data))

theorem splitOnDot_ne_nil (cs : List Char) : splitOnDot cs ≠ [] := by
  induction cs with
  | nil => simp [splitOnDot]
  | cons c rest ih =>
    unfold splitOnDot
    by_cases h : c = '.'
    · simp [h]
    · simp only [h, if_false, if_neg h]
      cases hs : splitOnDot rest <;> simp

theorem splitOnDot_append_dot (xs ys : List Char) :
    splitOnDot (xs ++ '.' :: ys) = splitOnDot xs ++ splitOnDot ys := by
  induction xs with
  | nil => simp [splitOnDot]
  | cons c xs ih =>
    by_cases h : c = '.'
    · subst h
      simp [splitOnDot, ih]
    · cases hs : splitOnDot xs with
      | nil => exact absurd hs (splitOnDot_ne_nil xs)
      | cons g gs =>
        simp [List.cons_append, splitOnDot, if_neg h, ih, hs]

theorem splitOnDot_no_dot (ys : List Char) (h : '.' ∉ ys) : splitOnDot ys = [ys] := by
  induction ys with
  | nil => rfl
  | cons c ys ih =>
    have hc : ¬ c = '.' := by
      intro e
      exact h (e ▸ List.mem_cons_self c ys)
    have hys : '.' ∉ ys := fun m => h (List.mem_cons_of_mem _ m)
    simp [splitOnDot, hc, ih hys]

theorem lastChunk_append (d d' : List Char) (A B : List (List Char)) (h : B ≠ []) :
    lastChunk d (A ++ B) = lastChunk d' B := by
  induction A generalizing d with
  | nil =>
    cases B with
    | nil => exact absurd rfl h
    | cons b bs => rfl
  | cons a A ih => exact ih a

/-- Error kinds the Kubernetes client distinguishes
(`apierrs.IsAlreadyExists`, not-found on get/update). -/
inductive K8sErr where
  | alreadyExists
  | notFound
deriving DecidableEq

/-- Errors returned by the embedded Go functions: the `fmt.Errorf` messages of
the source, by shape. -/
inductive GoErr where
  /-- "ConfigMap %s has already exist in cluster" -/
  | alreadyExistLocal (name : String)
  /-- "MapStore %s do not exist in cluster" -/
  | notFoundLocal (name : String)
  /-- "MapStore %s does not have key %s" -/
  | fieldNotFound (mapName key : String)
  /-- an error passed through unchanged from the Kubernetes client -/
  | k8s (e : K8sErr)
deriving DecidableEq

/-- A remote API call, recorded so that claims about which remote calls an
operation issues are statable. -/
inductive RemoteOp where
  | create (name : String)
  | get (name : String)
  | update (name : String)
  | delete (name : String)
deriving DecidableEq

instance {ε α : Type} [DecidableEq ε] [DecidableEq α] : DecidableEq (Except ε α) := fun a b =>
  match a, b with
  | .error e1, .error e2 =>
    if h : e1 = e2 then isTrue (by rw [h]) else isFalse (fun hh => h (by injection hh))
  | .error _, .ok _ => isFalse (fun hh => Except.noConfusion hh)
  | .ok _, .error _ => isFalse (fun hh => Except.noConfusion hh)
  | .ok a1, .ok a2 =>
    if h : a1 = a2 then isTrue (by rw [h]) else isFalse (fun hh => h (by injection hh))

/-- A `corev1.ConfigMap`: its object name and its `Data map[string]string`,
which may be `nil` (`none`). Labels, namespace and the version token are not
relevant to the claims and are elided. -/
structure ConfigMap where
  name : String
  data : Option (GoMap String)
deriving DecidableEq

/-- The remote authoritative state: ConfigMaps keyed by object name. -/
abbrev Cluster := GoMap ConfigMap

/-- Remote create: `AlreadyExists` if the object name is taken. -/
def clusterCreate (cl : Cluster) (cm : ConfigMap) : Except K8sErr ConfigMap × Cluster :=
  match goLookup cl cm.name with
  | some _ => (.error .alreadyExists, cl)
  | none => (.ok cm, goInsert cl cm.name cm)

/-- Remote get: `NotFound` if absent. -/
def clusterGet (cl : Cluster) (name : String) : Except K8sErr ConfigMap :=
  match goLookup cl name with
  | some cm => .ok cm
  | none => .error .notFound

/-- Remote update: `NotFound` if the object does not exist. -/
def clusterUpdate (cl : Cluster) (cm : ConfigMap) : Except K8sErr ConfigMap × Cluster :=
  match goLookup cl cm.name with
  | some _ => (.ok cm, goInsert cl cm.name cm)
  | none => (.error .notFound, cl)

/-- Go map read through the `Data` field, including the nil-map case
(reading a nil Go map yields "not present"). -/
def dataLookup (d : Option (GoMap String)) (k : String) : Option String :=
  match d with
  | some dm => goLookup dm k
  | none => none

/-- The upsert pattern shared by the `Upsert` methods that nil-check: when
`Data != nil` assign `Data[key] = value`, else allocate a fresh map holding
only that pair. -/
def dataUpsert (d : Option (GoMap String)) (key value : String) : GoMap String :=
  match d with
  | some dm => goInsert dm key value
  | none => [(key, value)]

/-- Go `delete(Data, key)` including the nil-map case (a no-op). -/
def dataDelete (d : Option (GoMap String)) (k : String) : Option (GoMap String) :=
  match d with
  | some dm => some (goDelete dm k)
  | none => none

/-! ## The buffered store variant (configmap-store.go, package `store`) -/

/-- Go `MapStore` of configmap-store.go: holds the cached ConfigMap.
The per-entity lock is elided. -/
structure MapStore where
  configMap : ConfigMap
deriving DecidableEq

/-- The manager's registry: logical name to `MapStore` handle. -/
abbrev Registry := GoMap MapStore

/-- Go `ConfigMapStoreManager` of configmap-store.go. Its always-present client,
namespace and lock are elided. -/
structure ConfigMapStoreManager where
  LocalMaps : Registry
deriving DecidableEq

/-- Go `MapStore.Upsert` of configmap-store.go (lines 158-167): buffered-local,
mutates only the in-memory `Data`, creating it when nil. -/
def MapStore.Upsert (m : MapStore) (key value : String) : MapStore :=
  { m with configMap := { m.configMap with data := some (dataUpsert m.configMap.data key value) } }

/-- Go `MapStore.Delete` of configmap-store.go (lines 170-175): a plain
`delete(m.configMap.Data, key)`, no error is ever reported. -/
def MapStore.Delete (m : MapStore) (key : String) : MapStore :=
  { m with configMap := { m.configMap with data := dataDelete m.configMap.data key } }

/-- Go `MapStore.Get` of configmap-store.go: a Go two-valued map read. -/
def MapStore.Get (m : MapStore) (key : String) : String × Bool :=
  match dataLookup m.configMap.data key with
  | some v => (v, true)
  | none => ("", false)

/-- Go `ConfigMapStoreManager.GetMapStore`: local registry lookup only. -/
def ConfigMapStoreManager.GetMapStore (c : ConfigMapStoreManager) (name : String) :
    Except GoErr MapStore :=
  match goLookup c.LocalMaps name with
  | some m => .ok m
  | none => .error (.notFoundLocal name)

/-- Go `ConfigMapStoreManager.CreateNewMapStore` of configmap-store.go
(lines 95-121). `now` stands for `time.Now().String()` stored under the
`"DATE"` key. Returns the result, the new manager and cluster states, and the
remote calls issued. -/
def ConfigMapStoreManager.CreateNewMapStore (c : ConfigMapStoreManager) (cl : Cluster)
    (now name : String) :
    Except GoErr MapStore × ConfigMapStoreManager × Cluster × List RemoteOp :=
  match goLookup c.LocalMaps name with
  | some _ => (.error (.alreadyExistLocal name), c, cl, [])
  | none =>
    match clusterCreate cl { name := storeDomain ++ "." ++ name, data := some [("DATE", now)] } with
    | (.error .alreadyExists, cl') =>
      (c.GetMapStore name, c, cl', [.create (storeDomain ++ "." ++ name)])
    | (.error e, cl') => (.error (.k8s e), c, cl', [.create (storeDomain ++ "." ++ name)])
    | (.ok res, cl') =>
      (.ok ⟨res⟩, ⟨goInsert c.LocalMaps name ⟨res⟩⟩, cl', [.create (storeDomain ++ "." ++ name)])

/-- One step of the add-or-update pass of `syncLocalMap`
(configmap-store.go lines 189-200): key the listed ConfigMap by its base name;
replace the cached object if the key exists, insert a fresh handle otherwise. -/
def upsertStep (acc : Registry) (cm : ConfigMap) : Registry :=
  match goLookup acc (extractBaseName cm.name) with
  | some _ => goInsert acc (extractBaseName cm.name) ⟨cm⟩
  | none => acc ++ [(extractBaseName cm.name, ⟨cm⟩)]

/-- The add-or-update pass of `syncLocalMap` over the whole listed set. -/
def upsertPass (localMap : Registry) (syncList : List ConfigMap) : Registry :=
  syncList.foldl upsertStep localMap

/-- The delete pass of `syncLocalMap` (configmap-store.go lines 202-213):
iterate over the registry entries; an entry whose cached object name is not
among the listed names is deleted under the base name of its cached object.
Go guarantees an entry deleted before being reached is not produced by the
range loop, hence the presence check on the accumulator. -/
def evictLoop (syncList : List ConfigMap) : Registry → Registry → Registry
  | [], acc => acc
  | e :: rest, acc =>
    if (goLookup acc e.1).isSome then
      if syncList.any (fun cm => e.2.configMap.name == cm.name) then
        evictLoop syncList rest acc
      else
        evictLoop syncList rest (goDelete acc (extractBaseName e.2.configMap.name))
    else
      evictLoop syncList rest acc

/-- Go `syncLocalMap` of configmap-store.go (lines 188-214): the add-or-update
pass followed by the delete pass over the registry produced by the first pass. -/
def syncLocalMap (localMap : Registry) (syncList : List ConfigMap) : Registry :=
  evictLoop syncList (upsertPass localMap syncList) (upsertPass localMap syncList)

/-! ## The synchronous-remote store variant (the older package `store` file) -/

/-- Go `MapStore` of the synchronous variant: carries its own client pointer
(`k8sclient *kubernetes.Clientset`), modelled by whether it is non-nil. -/
structure MapStoreSync where
  k8sclient : Bool
  configMap : ConfigMap
deriving DecidableEq

/-- Go `ConfigMapStoreManager` of the synchronous variant: its registry maps the
logical name to the full remote object name (`localMaps map[string]string`).
The manager's own client is non-nil when built by the real constructor and is
elided. -/
structure ConfigMapStoreManagerSync where
  localMaps : GoMap String
deriving DecidableEq

/-- Go `GetMapStore` of the synchronous variant: local name lookup, then a remote
get, returning a handle that carries the manager's (non-nil) client. -/
def ConfigMapStoreManagerSync.GetMapStore (c : ConfigMapStoreManagerSync) (cl : Cluster)
    (name : String) : Except GoErr MapStoreSync × List RemoteOp :=
  match goLookup c.localMaps name with
  | none => (.error (.notFoundLocal name), [])
  | some cname =>
    (match clusterGet cl cname with
     | .error e => .error (.k8s e)
     | .ok cm => .ok { k8sclient := true, configMap := cm },
     [.get cname])

/-- Go `CreateNewMapStore` of the synchronous variant (lines 57-80): if the name
is known locally, delegate to `GetMapStore`; otherwise create the remote
object (with nil `Data`), on `AlreadyExists` fall back to `GetMapStore`, and
on success return a fresh handle whose `k8sclient` field is left unset (nil). -/
def ConfigMapStoreManagerSync.CreateNewMapStore (c : ConfigMapStoreManagerSync) (cl : Cluster)
    (name : String) :
    Except GoErr MapStoreSync × ConfigMapStoreManagerSync × Cluster × List RemoteOp :=
  match goLookup c.localMaps name with
  | some _ => ((c.GetMapStore cl name).1, c, cl, (c.GetMapStore cl name).2)
  | none =>
    match clusterCreate cl { name := storeDomain ++ "." ++ name, data := none } with
    | (.error .alreadyExists, cl') =>
      ((c.GetMapStore cl' name).1, c, cl',
        .create (storeDomain ++ "." ++ name) :: (c.GetMapStore cl' name).2)
    | (.error e, cl') => (.error (.k8s e), c, cl', [.create (storeDomain ++ "." ++ name)])
    | (.ok ret, cl') =>
      (.ok { k8sclient := false, configMap := ret },
        ⟨goInsert c.localMaps name ret.name⟩, cl', [.create (storeDomain ++ "." ++ name)])

/-- Go `Upsert` of the synchronous variant (lines 116-132): mutate the local
`Data` (creating it when nil), then push a remote update through `k8sclient`;
the local mutation is not rolled back when the update fails. A nil client
(`k8sclient = false`) means the update call dereferences a nil pointer and the
goroutine panics, modelled as `none`. -/
def MapStoreSync.Upsert (m : MapStoreSync) (cl : Cluster) (key value : String) :
    Option (Except GoErr Unit × MapStoreSync × Cluster) :=
  if m.k8sclient then
    match clusterUpdate cl { m.configMap with data := some (dataUpsert m.configMap.data key value) } with
    | (.error e, cl') =>
      some (.error (.k8s e),
        { m with configMap := { m.configMap with data := some (dataUpsert m.configMap.data key value) } },
        cl')
    | (.ok ret, cl') =>
      some (.ok (), { m with configMap := ret }, cl')
  else none

/-- Go `Delete` of the synchronous variant (lines 135-154), translated verbatim:
the first check errors whenever `Data != nil`, the second errors when the key
is absent (which, the first check having passed, is always the case since
`Data` is nil there); the remaining delete-and-update code is unreachable. -/
def MapStoreSync.Delete (m : MapStoreSync) (cl : Cluster) (key : String) :
    Option (Except GoErr Unit × MapStoreSync × Cluster) :=
  match m.configMap.data with
  | some _ =>
    some (.error (.fieldNotFound (extractBaseName m.configMap.name) key), m, cl)
  | none =>
    match dataLookup (none : Option (GoMap String)) key with
    | none =>
      some (.error (.fieldNotFound (extractBaseName m.configMap.name) key), m, cl)
    | some _ =>
      if m.k8sclient then
        match clusterUpdate cl { m.configMap with data := dataDelete m.configMap.data key } with
        | (.error e, cl') =>
          some (.error (.k8s e),
            { m with configMap := { m.configMap with data := dataDelete m.configMap.data key } },
            cl')
        | (.ok ret, cl') => some (.ok (), { m with configMap := ret }, cl')
      else none

/-- Go `Get` of the synchronous variant (lines 157-172): a remote get through
`m.k8sclient` (nil client panics, modelled as `none`), then a read of the
fetched `Data`, with the "does not have key" error when nil or absent. -/
def MapStoreSync.Get (m : MapStoreSync) (cl : Cluster) (key : String) :
    Option (Except GoErr String) :=
  if m.k8sclient then
    match clusterGet cl m.configMap.name with
    | .error e => some (.error (.k8s e))
    | .ok cm =>
      match cm.data with
      | none => some (.error (.fieldNotFound (extractBaseName m.configMap.name) key))
      | some d =>
        match goLookup d key with
        | none => some (.error (.fieldNotFound (extractBaseName m.configMap.name) key))
        | some v => some (.ok v)
  else none

/-! ## The storage table variant (second half of configmap-storage.go) -/

/-- Go `MapStorage` of the `ConfigMapStorageClient` file ("configmap as table"). -/
structure MapStorageTable where
  configMap : ConfigMap
deriving DecidableEq

/-- Go `Upsert` of that variant (configmap-storage.go lines 356-361):
`t.configMap.Data[key] = value` with no nil check. Assigning into a nil Go map
panics, modelled as `none`. -/
def MapStorageTable.Upsert (t : MapStorageTable) (key value : String) :
    Option MapStorageTable :=
  match t.configMap.data with
  | some dm => some { t with configMap := { t.configMap with data := some (goInsert dm key value) } }
  | none => none

/-! ## Reference semantics of the cached ConfigMap (for the snapshot claim)

A Go `corev1.ConfigMap` value holds its `Data` map as a map header: copying
the struct (as `GetConfigMap`'s dereference does) copies the header, not the
underlying storage, so the copy and the original share one map. We model the
shared storage with an explicit heap of maps addressed by `Nat`. -/

/-- A ConfigMap whose `Data` field is a reference into the heap
(`none` models a nil map header). -/
structure HConfigMap where
  name : String
  dataRef : Option Nat
deriving DecidableEq

/-- A `MapStore` over the reference-semantics ConfigMap. -/
structure HMapStore where
  configMap : HConfigMap
deriving DecidableEq

/-- The heap of live Go map storages. -/
abbrev Heap := List (Nat × GoMap String)

def heapLookup : Heap → Nat → Option (GoMap String)
  | [], _ => none
  | e :: rest, a => if e.1 = a then some e.2 else heapLookup rest a

def heapUpdate : Heap → Nat → GoMap String → Heap
  | [], _, _ => []
  | e :: rest, a, dm => if e.1 = a then (a, dm) :: rest else e :: heapUpdate rest a dm

/-- Go `GetConfigMap` (configmap-store.go lines 184-186): `return *m.configMap`,
a struct copy — the returned value holds the same map header. -/
def HMapStore.GetConfigMap (m : HMapStore) : HConfigMap :=
  m.configMap

/-- Writing a key into the field map of a (possibly copied) ConfigMap record:
mutates the shared storage the map header points to. -/
def hWriteField (h : Heap) (cm : HConfigMap) (k v : String) : Heap :=
  match cm.dataRef with
  | some a =>
    match heapLookup h a with
    | some dm => heapUpdate h a (goInsert dm k v)
    | none => h
  | none => h

/-- Go `MapStore.Get` over the reference-semantics model. -/
def HMapStore.Get (h : Heap) (m : HMapStore) (key : String) : String × Bool :=
  match m.configMap.dataRef with
  | some a =>
    match heapLookup h a with
    | some dm =>
      match goLookup dm key with
      | some v => (v, true)
      | none => ("", false)
    | none => ("", false)
  | none => ("", false)

/-! ## Registry invariants and helper lemmas -/

/-- A well-formed registry: every entry is keyed by the base name of its
cached object, the invariant all code paths of the package maintain. -/
def WFRegistry (L : Registry) : Prop :=
  ∀ e ∈ L, e.1 = extractBaseName e.2.configMap.name

instance (L : Registry) : Decidable (WFRegistry L) := by
  unfold WFRegistry
  exact List.decidableBAll _ L

/-- The keys of a registry are distinct (inherent to a Go map). -/
def NodupKeys (L : Registry) : Prop :=
  (goKeys L).Nodup

instance (L : Registry) : Decidable (NodupKeys L) := by
  unfold NodupKeys
  exact List.nodupDecidable _

/-- No registry entry caches an object absent from the listed remote set. -/
def StaleFree (reg : Registry) (R : List ConfigMap) : Prop :=
  ∀ e ∈ reg, e.2.configMap.name ∈ R.map ConfigMap.name

instance (reg : Registry) (R : List ConfigMap) : Decidable (StaleFree reg R) := by
  unfold StaleFree
  exact List.decidableBAll _ reg

theorem goKeys_cons {α : Type} (e : String × α) (rest : GoMap α) :
    goKeys (e :: rest) = e.1 :: goKeys rest := rfl

theorem not_mem_goKeys_of_goLookup_eq_none {α : Type} (m : GoMap α) (k : String)
    (h : goLookup m k = none) : k ∉ goKeys m := by
  induction m with
  | nil =>
    intro hk
    simp [goKeys] at hk
  | cons e rest ih =>
    intro hk
    by_cases he : e.1 = k
    · simp only [goLookup, if_pos he] at h
      exact Option.noConfusion h
    · simp only [goLookup, if_neg he] at h
      rw [goKeys_cons] at hk
      rcases List.mem_cons.mp hk with h1 | h1
      · exact he h1.symm
      · exact ih h h1

theorem goLookup_append_cons_self {α : Type} (pre : GoMap α) (e : String × α)
    (rest : GoMap α) (h : e.1 ∉ goKeys pre) :
    goLookup (pre ++ e :: rest) e.1 = some e.2 := by
  induction pre with
  | nil => simp [goLookup]
  | cons a pre ih =>
    have ha : ¬ a.1 = e.1 := fun hh =>
      h (by rw [goKeys_cons]; exact hh ▸ List.mem_cons_self a.1 (goKeys pre))
    have h' : e.1 ∉ goKeys pre := fun hm =>
      h (by rw [goKeys_cons]; exact List.mem_cons_of_mem _ hm)
    simp only [List.cons_append, goLookup, if_neg ha]
    exact ih h'

theorem goDelete_eq_of_not_mem {α : Type} (m : GoMap α) (k : String)
    (h : k ∉ goKeys m) : goDelete m k = m := by
  induction m with
  | nil => rfl
  | cons e rest ih =>
    have he : ¬ e.1 = k := fun hh =>
      h (by rw [goKeys_cons]; exact hh ▸ List.mem_cons_self e.1 (goKeys rest))
    have h' : k ∉ goKeys rest := fun hm =>
      h (by rw [goKeys_cons]; exact List.mem_cons_of_mem _ hm)
    have hcond : decide (e.1 ≠ k) = true := by simp [he]
    show List.filter (fun x => decide (x.1 ≠ k)) (e :: rest) = e :: rest
    rw [List.filter_cons, if_pos hcond]
    exact congrArg (e :: ·) (ih h')

theorem goDelete_append_cons_self {α : Type} (pre : GoMap α) (e : String × α)
    (rest : GoMap α) (h1 : e.1 ∉ goKeys pre) (h2 : e.1 ∉ goKeys rest) :
    goDelete (pre ++ e :: rest) e.1 = pre ++ rest := by
  have hsplit : goDelete (pre ++ e :: rest) e.1 = goDelete pre e.1 ++ goDelete (e :: rest) e.1 := by
    simp [goDelete, List.filter_append]
  rw [hsplit, goDelete_eq_of_not_mem pre e.1 h1]
  have hcons : goDelete (e :: rest) e.1 = goDelete rest e.1 := by
    show List.filter (fun x => decide (x.1 ≠ e.1)) (e :: rest) = _
    rw [List.filter_cons, if_neg (by simp)]
    rfl
  rw [hcons, goDelete_eq_of_not_mem rest e.1 h2]

theorem mem_goInsert {α : Type} (m : GoMap α) (k : String) (v : α) :
    ∀ e ∈ goInsert m k v, e ∈ m ∨ e = (k, v) := by
  induction m with
  | nil =>
    intro e he
    simp [goInsert] at he
    right
    exact he
  | cons a rest ih =>
    intro e he
    by_cases h : a.1 = k
    · simp [goInsert, h] at he
      rcases he with he | he
      · right
        exact he
      · left
        exact List.mem_cons_of_mem _ he
    · simp [goInsert, h] at he
      rcases he with he | he
      · left
        exact he ▸ List.mem_cons_self a rest
      · rcases ih e he with hm | hv
        · left
          exact List.mem_cons_of_mem _ hm
        · right
          exact hv

theorem goKeys_goInsert_of_mem {α : Type} (m : GoMap α) (k : String) (v : α)
    (h : k ∈ goKeys m) : goKeys (goInsert m k v) = goKeys m := by
  induction m with
  | nil => simp [goKeys] at h
  | cons a rest ih =>
    by_cases ha : a.1 = k
    · simp only [goInsert, if_pos ha]
      rw [goKeys_cons, goKeys_cons, ha]
    · have h' : k ∈ goKeys rest := by
        rw [goKeys_cons] at h
        rcases List.mem_cons.mp h with hh | hh
        · exact absurd hh.symm ha
        · exact hh
      simp only [goInsert, if_neg ha]
      rw [goKeys_cons, goKeys_cons, ih h']

theorem goKeys_goInsert_of_not_mem {α : Type} (m : GoMap α) (k : String) (v : α)
    (h : k ∉ goKeys m) : goKeys (goInsert m k v) = goKeys m ++ [k] := by
  induction m with
  | nil => simp [goInsert, goKeys]
  | cons a rest ih =>
    have ha : ¬ a.1 = k := fun hh =>
      h (by rw [goKeys_cons]; exact hh ▸ List.mem_cons_self a.1 (goKeys rest))
    have h' : k ∉ goKeys rest := fun hm =>
      h (by rw [goKeys_cons]; exact List.mem_cons_of_mem _ hm)
    simp only [goInsert, if_neg ha]
    rw [goKeys_cons, goKeys_cons, ih h']
    rfl

theorem nodup_append_singleton {α : Type} (l : List α) (a : α)
    (h : l.Nodup) (ha : a ∉ l) : (l ++ [a]).Nodup := by
  simp [List.nodup_append, h, ha]

theorem goKeys_append {α : Type} (m1 m2 : GoMap α) :
    goKeys (m1 ++ m2) = goKeys m1 ++ goKeys m2 := by
  simp [goKeys]

theorem mem_goKeys_of_goLookup_eq_some {α : Type} (m : GoMap α) (k : String) (v : α)
    (h : goLookup m k = some v) : k ∈ goKeys m := by
  induction m with
  | nil => simp [goLookup] at h
  | cons e rest ih =>
    by_cases he : e.1 = k
    · rw [goKeys_cons]
      exact he ▸ List.mem_cons_self e.1 (goKeys rest)
    · simp only [goLookup, if_neg he] at h
      rw [goKeys_cons]
      exact List.mem_cons_of_mem _ (ih h)

theorem upsertStep_wf (acc : Registry) (cm : ConfigMap) (h : WFRegistry acc) :
    WFRegistry (upsertStep acc cm) := by
  intro e he
  unfold upsertStep at he
  cases hl : goLookup acc (extractBaseName cm.name) with
  | some m =>
    rw [hl] at he
    change e ∈ goInsert acc (extractBaseName cm.name) ⟨cm⟩ at he
    rcases mem_goInsert acc (extractBaseName cm.name) ⟨cm⟩ e he with hm | hv
    · exact h e hm
    · rw [hv]
  | none =>
    rw [hl] at he
    change e ∈ acc ++ [(extractBaseName cm.name, (⟨cm⟩ : MapStore))] at he
    rcases List.mem_append.mp he with hm | hv
    · exact h e hm
    · have hv' : e = (extractBaseName cm.name, (⟨cm⟩ : MapStore)) := by
        simpa using hv
      rw [hv']

theorem upsertStep_nodup (acc : Registry) (cm : ConfigMap) (h : NodupKeys acc) :
    NodupKeys (upsertStep acc cm) := by
  unfold NodupKeys
  unfold upsertStep
  cases hl : goLookup acc (extractBaseName cm.name) with
  | some m =>
    show (goKeys (goInsert acc (extractBaseName cm.name) ⟨cm⟩)).Nodup
    rw [goKeys_goInsert_of_mem acc _ _ (mem_goKeys_of_goLookup_eq_some acc _ m hl)]
    exact h
  | none =>
    show (goKeys (acc ++ [(extractBaseName cm.name, (⟨cm⟩ : MapStore))])).Nodup
    rw [goKeys_append]
    exact nodup_append_singleton _ _ h (not_mem_goKeys_of_goLookup_eq_none acc _ hl)

theorem upsertPass_wf (localMap : Registry) (syncList : List ConfigMap)
    (h : WFRegistry localMap) : WFRegistry (upsertPass localMap syncList) := by
  induction syncList generalizing localMap with
  | nil => exact h
  | cons cm rest ih => exact ih (upsertStep localMap cm) (upsertStep_wf localMap cm h)

theorem upsertPass_nodup (localMap : Registry) (syncList : List ConfigMap)
    (h : NodupKeys localMap) : NodupKeys (upsertPass localMap syncList) := by
  induction syncList generalizing localMap with
  | nil => exact h
  | cons cm rest ih => exact ih (upsertStep localMap cm) (upsertStep_nodup localMap cm h)

theorem evictLoop_eq_filter (R : List ConfigMap) (rest : Registry) :
    ∀ pre : Registry, WFRegistry rest → NodupKeys (pre ++ rest) →
      evictLoop R rest (pre ++ rest) =
        pre ++ rest.filter (fun e => R.any fun cm => e.2.configMap.name == cm.name) := by
  induction rest with
  | nil =>
    intro pre _ _
    simp [evictLoop]
  | cons e rest ih =>
    intro pre hwf hnd
    have hkeys : goKeys (pre ++ e :: rest) = goKeys pre ++ e.1 :: goKeys rest := by
      rw [goKeys_append, goKeys_cons]
    have hnd' : (goKeys pre ++ e.1 :: goKeys rest).Nodup := by
      rw [← hkeys]
      exact hnd
    rw [List.nodup_append] at hnd'
    obtain ⟨hp, hc, hdisj⟩ := hnd'
    have hkpre : e.1 ∉ goKeys pre := fun hm => hdisj hm (List.mem_cons_self _ _)
    have hkrest : e.1 ∉ goKeys rest := (List.nodup_cons.mp hc).1
    have hwf' : WFRegistry rest := fun x hx => hwf x (List.mem_cons_of_mem _ hx)
    have hlook : goLookup (pre ++ e :: rest) e.1 = some e.2 :=
      goLookup_append_cons_self pre e rest hkpre
    have hcond : (goLookup (pre ++ e :: rest) e.1).isSome = true := by
      rw [hlook]
      rfl
    simp only [evictLoop]
    rw [if_pos hcond]
    by_cases hany : (R.any fun cm => e.2.configMap.name == cm.name) = true
    · rw [if_pos hany]
      have h1 : pre ++ e :: rest = (pre ++ [e]) ++ rest := by simp
      have hnd2 : NodupKeys ((pre ++ [e]) ++ rest) := by
        rw [← h1]
        exact hnd
      rw [h1, ih (pre ++ [e]) hwf' hnd2, List.filter_cons, if_pos hany]
      simp
    · rw [if_neg hany]
      have hkey : extractBaseName e.2.configMap.name = e.1 :=
        (hwf e (List.mem_cons_self e rest)).symm
      rw [hkey, goDelete_append_cons_self pre e rest hkpre hkrest]
      have hnd3 : NodupKeys (pre ++ rest) := by
        unfold NodupKeys
        rw [goKeys_append, List.nodup_append]
        exact ⟨hp, (List.nodup_cons.mp hc).2,
          fun a ha hb => hdisj ha (List.mem_cons_of_mem _ hb)⟩
      rw [ih pre hwf' hnd3, List.filter_cons, if_neg hany]

/-- After a full reconciliation of a well-formed registry, every surviving
entry caches an object whose name was among the listed remote names. -/
theorem syncLocalMap_staleFree (L : Registry) (R : List ConfigMap)
    (hwf : WFRegistry L) (hnd : NodupKeys L) :
    StaleFree (syncLocalMap L R) R := by
  intro e he
  have hUwf : WFRegistry (upsertPass L R) := upsertPass_wf L R hwf
  have hUnd : NodupKeys (upsertPass L R) := upsertPass_nodup L R hnd
  have heq := evictLoop_eq_filter R (upsertPass L R) [] hUwf hUnd
  simp only [List.nil_append] at heq
  unfold syncLocalMap at he
  rw [heq] at he
  have hmem := List.mem_filter.mp he
  rcases List.any_eq_true.mp hmem.2 with ⟨cm, hcm, hbeq⟩
  exact List.mem_map.mpr ⟨cm, hcm, (eq_of_beq hbeq).symm⟩

/-! ## Concrete reconciliation instances (from the spec and the repo's test) -/

/-- The local registry `L = \x7bfoo:\x7ba:1\x7d, bar:\x7ba:2\x7d\x7d`. -/
def regFooBar : Registry :=
  [("foo", ⟨⟨storeDomain ++ ".foo", some [("a", "1")]⟩⟩),
   ("bar", ⟨⟨storeDomain ++ ".bar", some [("a", "2")]⟩⟩)]

/-- The remote list `R = [foo:\x7b...\x7d]` of the eviction instance. -/
def listOnlyFoo : List ConfigMap :=
  [⟨storeDomain ++ ".foo", some [("a", "2")]⟩]

/-- The remote list `R = [foo:\x7ba:2\x7d, bar:\x7ba:2,b:3\x7d, foobar:\x7ba:9\x7d]`. -/
def listThree : List ConfigMap :=
  [⟨storeDomain ++ ".foo", some [("a", "2")]⟩,
   ⟨storeDomain ++ ".bar", some [("a", "2"), ("b", "3")]⟩,
   ⟨storeDomain ++ ".foobar", some [("a", "9")]⟩]

/-- A registry whose key does not match its cached object's base name. -/
def regMiskeyed : Registry :=
  [("a", ⟨⟨storeDomain ++ ".b", some []⟩⟩)]

/-- C1: after reconciliation (`syncLocalMap` of configmap-store.go) no
registry entry caches an object absent from the listed remote set — provable
for registries whose keys are the distinct base names of their cached
objects' names (the invariant every code path maintains) — and on the spec's
concrete instance (`L` holding foo and bar, `R` listing only foo) the
surviving keyset is exactly `["foo"]`. -/
theorem syncLocalMap_evicts_absent :
    (∀ (L : Registry) (R : List ConfigMap),
        WFRegistry L → NodupKeys L → StaleFree (syncLocalMap L R) R)
    ∧ goKeys (syncLocalMap regFooBar listOnlyFoo) = ["foo"] :=
  ⟨fun L R hwf hnd => syncLocalMap_staleFree L R hwf hnd, by decide⟩

/-- Witness for C1 at the spec's concrete eviction instance. -/
theorem syncLocalMap_evicts_absent_witness :
    StaleFree (syncLocalMap regFooBar listOnlyFoo) listOnlyFoo :=
  syncLocalMap_evicts_absent.1 regFooBar listOnlyFoo (by decide) (by decide)

/-- C1 counterexample: for an arbitrary registry the claim is false. The
entry keyed "a" caches the object `<domain>.b`; the remote list is empty; the
delete pass removes the key "b" (the base name of the cached object), not
"a", so the stale entry survives reconciliation. -/
theorem syncLocalMap_stale_counterexample :
    goKeys (syncLocalMap regMiskeyed []) = ["a"]
    ∧ ¬ StaleFree (syncLocalMap regMiskeyed []) [] := by
  constructor
  · decide
  · decide

/-- C2: on the spec's concrete instance, reconciliation produces exactly the
keys foo, bar, foobar, each caching the field map of the corresponding listed
item. -/
theorem syncLocalMap_concrete_instance :
    goKeys (syncLocalMap regFooBar listThree) = ["foo", "bar", "foobar"]
    ∧ goLookup (syncLocalMap regFooBar listThree) "foo"
        = some ⟨⟨storeDomain ++ ".foo", some [("a", "2")]⟩⟩
    ∧ goLookup (syncLocalMap regFooBar listThree) "bar"
        = some ⟨⟨storeDomain ++ ".bar", some [("a", "2"), ("b", "3")]⟩⟩
    ∧ goLookup (syncLocalMap regFooBar listThree) "foobar"
        = some ⟨⟨storeDomain ++ ".foobar", some [("a", "9")]⟩⟩ := by
  decide

/-- C9: for every logical name without a dot, qualifying with the domain and
a separator and then extracting the base name round-trips. -/
theorem extractBaseName_roundtrip (n : String) (h : '.' ∉ n.data) :
    extractBaseName (storeDomain ++ "." ++ n) = n := by
  unfold extractBaseName
  have hdata : (storeDomain ++ "." ++ n).data = storeDomain.data ++ '.' :: n.data := by
    rw [String.data_append, String.data_append]
    show (storeDomain.data ++ ['.']) ++ n.data = storeDomain.data ++ '.' :: n.data
    simp
  rw [hdata, splitOnDot_append_dot, splitOnDot_no_dot n.data h,
    lastChunk_append [] [] (splitOnDot storeDomain.data) [n.data] (by simp)]
  show String.mk n.data = n
  cases n
  rfl

/-- Witness for C9 at the repository test's concrete name "aaa". -/
theorem extractBaseName_roundtrip_witness :
    extractBaseName (storeDomain ++ "." ++ "aaa") = "aaa" :=
  extractBaseName_roundtrip "aaa" (by decide)

/-! ## Claims about the field-level and manager-level operations -/

/-- C3 (code bug in the source): the synchronous variant's `Delete` errors on
an entity whose populated field map holds the key — its existence check is
inverted (`if Data != nil` instead of a key check) — while the buffered
variant's `Delete` reports nothing at all when the key is absent. Neither
implements "FieldNotFound iff the key is absent". -/
theorem delete_field_inverted_check :
    MapStoreSync.Delete ⟨true, ⟨storeDomain ++ ".foo", some [("k", "v")]⟩⟩
        [(storeDomain ++ ".foo", ⟨storeDomain ++ ".foo", some [("k", "v")]⟩)] "k"
      = some (.error (.fieldNotFound "foo" "k"),
          ⟨true, ⟨storeDomain ++ ".foo", some [("k", "v")]⟩⟩,
          [(storeDomain ++ ".foo", ⟨storeDomain ++ ".foo", some [("k", "v")]⟩)])
    ∧ MapStore.Delete ⟨⟨storeDomain ++ ".foo", some [("a", "b")]⟩⟩ "missing"
      = ⟨⟨storeDomain ++ ".foo", some [("a", "b")]⟩⟩ := by
  decide

/-- A manager whose registry already holds "foo" (buffered variant). -/
def mgrFoo : ConfigMapStoreManager :=
  ⟨[("foo", ⟨⟨storeDomain ++ ".foo", some []⟩⟩)]⟩

/-- A manager whose registry already holds "foo" (synchronous variant). -/
def mgrSyncFoo : ConfigMapStoreManagerSync :=
  ⟨[("foo", storeDomain ++ ".foo")]⟩

/-- A cluster already holding the qualified object for "foo". -/
def clFoo : Cluster :=
  [(storeDomain ++ ".foo", ⟨storeDomain ++ ".foo", some [("x", "y")]⟩)]

/-- C4 (amended): when the name is already in the registry, the buffered
variant's `CreateNewMapStore` returns an "already exist" error, touching
neither local nor remote state and issuing no remote call; the synchronous
variant instead delegates to `GetMapStore`, whose result it returns and which
issues exactly one remote get. -/
theorem createNewMapStore_on_existing_name :
    (∀ (c : ConfigMapStoreManager) (cl : Cluster) (now name : String) (m : MapStore),
        goLookup c.LocalMaps name = some m →
        c.CreateNewMapStore cl now name = (.error (.alreadyExistLocal name), c, cl, []))
    ∧ (∀ (c : ConfigMapStoreManagerSync) (cl : Cluster) (name cname : String),
        goLookup c.localMaps name = some cname →
        c.CreateNewMapStore cl name
          = ((c.GetMapStore cl name).1, c, cl, (c.GetMapStore cl name).2))
    ∧ (∀ (c : ConfigMapStoreManagerSync) (cl : Cluster) (name cname : String),
        goLookup c.localMaps name = some cname →
        (c.GetMapStore cl name).2 = [.get cname]) := by
  refine ⟨?_, ?_, ?_⟩
  · intro c cl now name m h
    unfold ConfigMapStoreManager.CreateNewMapStore
    rw [h]
  · intro c cl name cname h
    unfold ConfigMapStoreManagerSync.CreateNewMapStore
    rw [h]
  · intro c cl name cname h
    unfold ConfigMapStoreManagerSync.GetMapStore
    rw [h]

/-- Witness for C4 (amended) at concrete managers holding "foo". -/
theorem createNewMapStore_on_existing_name_witness :
    mgrFoo.CreateNewMapStore [] "now" "foo" = (.error (.alreadyExistLocal "foo"), mgrFoo, [], [])
    ∧ mgrSyncFoo.CreateNewMapStore clFoo "foo"
        = ((mgrSyncFoo.GetMapStore clFoo "foo").1, mgrSyncFoo, clFoo,
            (mgrSyncFoo.GetMapStore clFoo "foo").2)
    ∧ (mgrSyncFoo.GetMapStore clFoo "foo").2 = [.get (storeDomain ++ ".foo")] :=
  ⟨createNewMapStore_on_existing_name.1 mgrFoo [] "now" "foo"
      ⟨⟨storeDomain ++ ".foo", some []⟩⟩ (by decide),
   createNewMapStore_on_existing_name.2.1 mgrSyncFoo clFoo "foo"
      (storeDomain ++ ".foo") (by decide),
   createNewMapStore_on_existing_name.2.2 mgrSyncFoo clFoo "foo"
      (storeDomain ++ ".foo") (by decide)⟩

/-- C4 counterexample: with "foo" already in the registry, the buffered
variant returns an error rather than the existing handle, and the synchronous
variant issues a remote get — contradicting "returns the existing handle
without issuing any remote call and without returning an error". -/
theorem createNewMapStore_existing_counterexample :
    (mgrFoo.CreateNewMapStore [] "now" "foo").1 = .error (.alreadyExistLocal "foo")
    ∧ (mgrSyncFoo.CreateNewMapStore clFoo "foo").2.2.2 = [.get (storeDomain ++ ".foo")] := by
  decide

/-- C5 (code bug in the source): with the name absent from the registry but
the remote object already existing, the remote create fails with
AlreadyExists and the fallback `GetMapStore` — which requires the name to be
present locally — fails with the local not-found error, in both variants. The
existing remote entity is never adopted. -/
theorem createIfAbsent_adoption_fails :
    ((⟨[]⟩ : ConfigMapStoreManager).CreateNewMapStore clFoo "now" "foo").1
      = .error (.notFoundLocal "foo")
    ∧ ((⟨[]⟩ : ConfigMapStoreManagerSync).CreateNewMapStore clFoo "foo").1
      = .error (.notFoundLocal "foo") := by
  decide

/-- The synchronous `Delete` always returns the field-not-found error and
leaves both the entity and the cluster untouched: its first check errors on
every non-nil `Data`, and on nil `Data` the key lookup fails. -/
theorem deleteSync_always_errors (m : MapStoreSync) (cl : Cluster) (key : String) :
    MapStoreSync.Delete m cl key
      = some (.error (.fieldNotFound (extractBaseName m.configMap.name) key), m, cl) := by
  obtain ⟨b, nm, d⟩ := m
  cases d with
  | some dm => rfl
  | none => rfl

/-- C6 (amended): in the synchronous variant a failed remote update does not
leave the local state untouched — `Upsert` mutates the local field map before
the remote call and returns the error without rolling back; `Delete` never
reaches its remote update at all, returning its (inverted) existence-check
error with the state unchanged. -/
theorem upsert_mutates_local_on_remote_failure :
    (∀ (m : MapStoreSync) (cl : Cluster) (k v : String),
        m.k8sclient = true → goLookup cl m.configMap.name = none →
        MapStoreSync.Upsert m cl k v
          = some (.error (.k8s .notFound),
              { m with configMap :=
                { m.configMap with data := some (dataUpsert m.configMap.data k v) } },
              cl))
    ∧ (∀ (m : MapStoreSync) (cl : Cluster) (k : String),
        MapStoreSync.Delete m cl k
          = some (.error (.fieldNotFound (extractBaseName m.configMap.name) k), m, cl)) := by
  constructor
  · intro m cl k v hb hcl
    unfold MapStoreSync.Upsert clusterUpdate
    rw [if_pos hb]
    simp [hcl]
  · exact fun m cl k => deleteSync_always_errors m cl k

/-- Witness for C6 (amended) at a concrete entity whose remote object is
missing, so the remote update fails. -/
theorem upsert_mutates_local_witness :
    MapStoreSync.Upsert ⟨true, ⟨storeDomain ++ ".bar", some [("a", "1")]⟩⟩ [] "k" "v"
      = some (.error (.k8s .notFound),
          ⟨true, ⟨storeDomain ++ ".bar", some [("a", "1"), ("k", "v")]⟩⟩, [])
    ∧ MapStoreSync.Delete ⟨true, ⟨storeDomain ++ ".bar", some [("a", "1")]⟩⟩ [] "k"
      = some (.error (.fieldNotFound "bar" "k"),
          ⟨true, ⟨storeDomain ++ ".bar", some [("a", "1")]⟩⟩, []) :=
  ⟨upsert_mutates_local_on_remote_failure.1
      ⟨true, ⟨storeDomain ++ ".bar", some [("a", "1")]⟩⟩ [] "k" "v" rfl (by decide),
   upsert_mutates_local_on_remote_failure.2
      ⟨true, ⟨storeDomain ++ ".bar", some [("a", "1")]⟩⟩ [] "k"⟩

/-- C6 counterexample: the remote update fails (empty cluster), yet the local
field map after the call is \x7bk: v\x7d, not the empty map it was before. -/
theorem upsert_remote_failure_counterexample :
    MapStoreSync.Upsert ⟨true, ⟨storeDomain ++ ".foo", some []⟩⟩ [] "k" "v"
      = some (.error (.k8s .notFound),
          ⟨true, ⟨storeDomain ++ ".foo", some [("k", "v")]⟩⟩, [])
    ∧ (some [("k", "v")] : Option (GoMap String)) ≠ some [] := by
  decide

theorem goLookup_goInsert_self {α : Type} (m : GoMap α) (k : String) (v : α) :
    goLookup (goInsert m k v) k = some v := by
  induction m with
  | nil => simp [goInsert, goLookup]
  | cons e rest ih =>
    by_cases he : e.1 = k
    · simp [goInsert, he, goLookup]
    · simp only [goInsert, if_neg he, goLookup]
      exact ih

theorem goLookup_goInsert_ne {α : Type} (m : GoMap α) (k k' : String) (v : α)
    (h : k' ≠ k) : goLookup (goInsert m k v) k' = goLookup m k' := by
  have h1 : ¬ k = k' := fun hh => h hh.symm
  induction m with
  | nil => simp [goInsert, goLookup, if_neg h1]
  | cons e rest ih =>
    by_cases he : e.1 = k
    · have h2 : ¬ e.1 = k' := fun hh => h1 (he ▸ hh)
      simp only [goInsert, if_pos he, goLookup, if_neg h1, if_neg h2]
    · simp only [goInsert, if_neg he, goLookup]
      by_cases h3 : e.1 = k'
      · rw [if_pos h3, if_pos h3]
      · rw [if_neg h3, if_neg h3]
        exact ih

/-- C7 (amended): the nil-checking `Upsert` (MapStore.Upsert of
configmap-store.go) inserts or overwrites — the key reads back as the new
value, other keys are unchanged, and a nil field map becomes exactly
\x7bkey: value\x7d — while the table-client `MapStorage.Upsert`
(configmap-storage.go line 356) panics on a nil field map (modelled `none`)
instead of completing. -/
theorem upsert_inserts_or_overwrites :
    (∀ (m : MapStore) (k v : String),
        dataLookup (m.Upsert k v).configMap.data k = some v)
    ∧ (∀ (m : MapStore) (k v k' : String), k' ≠ k →
        dataLookup (m.Upsert k v).configMap.data k' = dataLookup m.configMap.data k')
    ∧ (∀ (m : MapStore) (k v : String), m.configMap.data = none →
        (m.Upsert k v).configMap.data = some [(k, v)])
    ∧ (∀ (t : MapStorageTable) (k v : String), t.configMap.data = none →
        MapStorageTable.Upsert t k v = none) := by
  refine ⟨?_, ?_, ?_, ?_⟩
  · intro m k v
    show dataLookup (some (dataUpsert m.configMap.data k v)) k = some v
    cases hd : m.configMap.data with
    | some dm => simp [dataUpsert, dataLookup, goLookup_goInsert_self]
    | none => simp [dataUpsert, dataLookup, goLookup]
  · intro m k v k' hne
    show dataLookup (some (dataUpsert m.configMap.data k v)) k' = dataLookup m.configMap.data k'
    cases hd : m.configMap.data with
    | some dm => simp [dataUpsert, dataLookup, goLookup_goInsert_ne dm k k' v hne]
    | none =>
      simp only [dataUpsert, dataLookup, goLookup]
      rw [if_neg (fun hh => hne hh.symm)]
  · intro m k v h
    show some (dataUpsert m.configMap.data k v) = some [(k, v)]
    rw [h]
    rfl
  · intro t k v h
    unfold MapStorageTable.Upsert
    rw [h]

/-- Witness for C7 (amended) at concrete stores. -/
theorem upsert_inserts_or_overwrites_witness :
    dataLookup ((MapStore.Upsert ⟨⟨storeDomain ++ ".w", some [("a", "1")]⟩⟩ "a" "2").configMap.data) "a"
      = some "2"
    ∧ dataLookup ((MapStore.Upsert ⟨⟨storeDomain ++ ".w", some [("a", "1")]⟩⟩ "a" "2").configMap.data) "z"
      = dataLookup (some [("a", "1")]) "z"
    ∧ (MapStore.Upsert ⟨⟨storeDomain ++ ".w", none⟩⟩ "a" "2").configMap.data = some [("a", "2")]
    ∧ MapStorageTable.Upsert ⟨⟨storageDomain ++ ".t", none⟩⟩ "a" "2" = none :=
  ⟨upsert_inserts_or_overwrites.1 ⟨⟨storeDomain ++ ".w", some [("a", "1")]⟩⟩ "a" "2",
   upsert_inserts_or_overwrites.2.1 ⟨⟨storeDomain ++ ".w", some [("a", "1")]⟩⟩ "a" "2" "z" (by decide),
   upsert_inserts_or_overwrites.2.2.1 ⟨⟨storeDomain ++ ".w", none⟩⟩ "a" "2" rfl,
   upsert_inserts_or_overwrites.2.2.2 ⟨⟨storageDomain ++ ".t", none⟩⟩ "a" "2" rfl⟩

/-- C7 counterexample: the cited table-client `Upsert` on an entity whose
field map is nil does not complete normally with \x7ba: b\x7d — it hits the
nil-map assignment panic (modelled `none`). -/
theorem upsert_nil_map_panics_counterexample :
    MapStorageTable.Upsert ⟨⟨storageDomain ++ ".t", none⟩⟩ "a" "b" = none := by
  decide

/-- C8 (code bug in the source): `GetConfigMap` returns `*m.configMap`, a
struct copy whose `Data` map header still points at the live entity's
storage. Writing x=y through the snapshot's field map is visible to a
subsequent Get on the entity (it reads "y"), although before the write the
entity did not hold x. -/
theorem getConfigMap_snapshot_shares_map :
    HMapStore.Get
        (hWriteField [(0, [])]
          (HMapStore.GetConfigMap ⟨⟨storeDomain ++ ".foo", some 0⟩⟩) "x" "y")
        ⟨⟨storeDomain ++ ".foo", some 0⟩⟩ "x" = ("y", true)
    ∧ HMapStore.Get [(0, [])] ⟨⟨storeDomain ++ ".foo", some 0⟩⟩ "x" = ("", false) := by
  decide

/-- C10 (amended): a successful (non-AlreadyExists) create in the synchronous
variant returns a handle whose `k8sclient` field was never set; `Upsert` and
`Get` on such a handle dereference the nil client (modelled `none`); `Delete`
instead returns its existence-check error before any client use; and every
handle `GetMapStore` returns carries the manager's usable client. -/
theorem create_handle_nil_client :
    (∀ (c : ConfigMapStoreManagerSync) (cl : Cluster) (name : String),
        goLookup c.localMaps name = none →
        goLookup cl (storeDomain ++ "." ++ name) = none →
        (c.CreateNewMapStore cl name).1
          = .ok ⟨false, ⟨storeDomain ++ "." ++ name, none⟩⟩)
    ∧ (∀ (m : MapStoreSync) (cl : Cluster) (k v : String),
        m.k8sclient = false → MapStoreSync.Upsert m cl k v = none)
    ∧ (∀ (m : MapStoreSync) (cl : Cluster) (k : String),
        m.k8sclient = false → MapStoreSync.Get m cl k = none)
    ∧ (∀ (m : MapStoreSync) (cl : Cluster) (k : String),
        MapStoreSync.Delete m cl k
          = some (.error (.fieldNotFound (extractBaseName m.configMap.name) k), m, cl))
    ∧ (∀ (c : ConfigMapStoreManagerSync) (cl : Cluster) (name : String)
        (m : MapStoreSync) (t : List RemoteOp),
        c.GetMapStore cl name = (.ok m, t) → m.k8sclient = true) := by
  refine ⟨?_, ?_, ?_, ?_, ?_⟩
  · intro c cl name h1 h2
    unfold ConfigMapStoreManagerSync.CreateNewMapStore clusterCreate
    rw [h1]
    simp [h2]
  · intro m cl k v hb
    simp [MapStoreSync.Upsert, hb]
  · intro m cl k hb
    simp [MapStoreSync.Get, hb]
  · exact fun m cl k => deleteSync_always_errors m cl k
  · intro c cl name m t h
    unfold ConfigMapStoreManagerSync.GetMapStore at h
    cases hl : goLookup c.localMaps name with
    | none =>
      rw [hl] at h
      simp at h
    | some cname =>
      rw [hl] at h
      cases hg : clusterGet cl cname with
      | error e =>
        simp [hg] at h
      | ok cm =>
        simp only [hg, Prod.mk.injEq, Except.ok.injEq] at h
        obtain ⟨h1, h2⟩ := h
        subst h1
        rfl

/-- Witness for C10 (amended) at concrete states. -/
theorem create_handle_nil_client_witness :
    ((⟨[]⟩ : ConfigMapStoreManagerSync).CreateNewMapStore [] "w").1
      = .ok ⟨false, ⟨storeDomain ++ "." ++ "w", none⟩⟩
    ∧ MapStoreSync.Upsert ⟨false, ⟨storeDomain ++ ".w", none⟩⟩ [] "k" "v" = none
    ∧ MapStoreSync.Get ⟨false, ⟨storeDomain ++ ".w", none⟩⟩ [] "k" = none
    ∧ MapStoreSync.Delete ⟨false, ⟨storeDomain ++ ".w", none⟩⟩ [] "k"
      = some (.error (.fieldNotFound "w" "k"), ⟨false, ⟨storeDomain ++ ".w", none⟩⟩, [])
    ∧ (⟨true, ⟨storeDomain ++ ".w", none⟩⟩ : MapStoreSync).k8sclient = true :=
  ⟨create_handle_nil_client.1 ⟨[]⟩ [] "w" rfl rfl,
   create_handle_nil_client.2.1 ⟨false, ⟨storeDomain ++ ".w", none⟩⟩ [] "k" "v" rfl,
   create_handle_nil_client.2.2.1 ⟨false, ⟨storeDomain ++ ".w", none⟩⟩ [] "k" rfl,
   create_handle_nil_client.2.2.2.1 ⟨false, ⟨storeDomain ++ ".w", none⟩⟩ [] "k",
   create_handle_nil_client.2.2.2.2 ⟨[("w", storeDomain ++ ".w")]⟩
     [(storeDomain ++ ".w", ⟨storeDomain ++ ".w", none⟩)] "w"
     ⟨true, ⟨storeDomain ++ ".w", none⟩⟩ [.get (storeDomain ++ ".w")] (by decide)⟩

/-- C10 counterexample: `Delete` on the clientless handle a successful create
returns does not reach a nil-client dereference — it completes with the
field-not-found error, state unchanged. -/
theorem delete_no_nil_dereference_counterexample :
    MapStoreSync.Delete ⟨false, ⟨storeDomain ++ ".foo", none⟩⟩ [] "k" ≠ none
    ∧ MapStoreSync.Delete ⟨false, ⟨storeDomain ++ ".foo", none⟩⟩ [] "k"
      = some (.error (.fieldNotFound "foo" "k"), ⟨false, ⟨storeDomain ++ ".foo", none⟩⟩, []) := by
  decide
